import Mathlib

/-!
# Verification of the Docker containerizer (`src/slave/containerizer/docker.cpp`)

A shallow embedding of `DockerContainerizerProcess`. The process is an actor:
every handler runs to completion with exclusive access to the four maps
(`promises`, `statuses`, `resources`, `destroying`), so each handler (and each
deferred continuation such as `_destroy`/`__destroy`) is embedded as a pure
function from the actor state (plus the values the continuation receives from
its completed futures) to a new actor state together with the external requests
it issues (docker kill / inspect / run, cgroup control-file writes).

Strings are modelled as `List Char` so that prefix manipulation
(`strings::startsWith`, `strings::remove(…, PREFIX)`) is by `List.isPrefixOf`
and `List.drop`.
-/

namespace DockerCtz

/-- Mesos `std::string`, modelled as a character list. -/
abbrev MStr := List Char

/-- Shorthand turning a Lean string literal into an `MStr`. -/
def str (s : String) : MStr := s.toList

/-- `mesos::ContainerID`: an opaque string-valued identity (`value` field of
the protobuf message). -/
structure ContainerID where
  value : MStr
deriving DecidableEq, Repr

/-- `stringify(containerId)`: the protobuf stringification used by the
containerizer is the id's value. -/
def stringify (id : ContainerID) : MStr := id.value

/-- Declared in `docker.cpp`: `string DOCKER_NAME_PREFIX = "mesos-";`. -/
def DOCKER_NAME_PREFIX : MStr := str "mesos-"

/-! ## Association-list model of `hashmap` / `hashset` -/

/-- `hashmap::get` / `operator[]` read: first binding for the key. -/
def lookupKey {α : Type} (l : List (ContainerID × α)) (k : ContainerID) :
    Option α :=
  match l with
  | [] => none
  | (k', v) :: rest => if k' = k then some v else lookupKey rest k

/-- `hashmap::contains` / `hashmap::keys().contains`. -/
def containsKey {α : Type} (l : List (ContainerID × α)) (k : ContainerID) :
    Bool :=
  (lookupKey l k).isSome

/-- `hashmap::put` / `operator[]=`: replace the binding for the key, or add
one. -/
def putKey {α : Type} (l : List (ContainerID × α)) (k : ContainerID) (v : α) :
    List (ContainerID × α) :=
  match l with
  | [] => [(k, v)]
  | (k', v') :: rest =>
      if k' = k then (k, v) :: rest else (k', v') :: putKey rest k v

/-- `hashmap::erase`. -/
def eraseKey {α : Type} (l : List (ContainerID × α)) (k : ContainerID) :
    List (ContainerID × α) :=
  match l with
  | [] => []
  | (k', v') :: rest =>
      if k' = k then eraseKey rest k else (k', v') :: eraseKey rest k

/-- `hashset::erase` on the `destroying` set (the set holds no duplicates, so
removing every occurrence coincides with removing the element). -/
def eraseId (l : List ContainerID) (k : ContainerID) : List ContainerID :=
  l.filter (fun x => x ≠ k)

/-! ## Container-record state -/

/-- `containerizer::Termination` protobuf: `killed`, optional `status`,
`message`. -/
structure Termination where
  killed : Bool
  status : Option Int
  message : MStr
deriving DecidableEq, Repr

/-- The state of one `Promise<containerizer::Termination>`: pending, set with
a termination, or failed with a message. -/
inductive PromiseState where
  | pending
  | set (t : Termination)
  | failed (msg : MStr)
deriving DecidableEq, Repr

/-- An entry of the `statuses` map (`Future<Option<int>>`): either a reap in
flight for a pid (`process::reap(pid)`), or a future already holding a value
(`statuses[containerId] = None()` in `_destroy`). -/
inductive StatusFuture where
  | reap (pid : Nat)
  | ready (v : Option Int)
deriving DecidableEq, Repr

/-- `Resources` as used by this containerizer: an optional cpu quantity and an
optional memory quantity in bytes. -/
structure Resources where
  cpus : Option ℚ
  mem : Option Nat
deriving DecidableEq, Repr

/-- The mutable state of `DockerContainerizerProcess`: the four per-container
maps, plus the set of ids whose `statuses` future has the
`defer(self(), &Self::reaped, containerId)` callback attached. -/
structure DCP where
  promises : List (ContainerID × PromiseState)
  statuses : List (ContainerID × StatusFuture)
  resources : List (ContainerID × Resources)
  destroying : List ContainerID
  reapedCallbacks : List ContainerID
deriving DecidableEq, Repr

/-- The empty containerizer state (at construction). -/
def DCP.empty : DCP := ⟨[], [], [], [], []⟩

/-! ## Naming -/

/-- `DockerContainerizerProcess::containerName`:
`DOCKER_NAME_PREFIX + stringify(containerId)`. -/
def containerName (containerId : ContainerID) : MStr :=
  DOCKER_NAME_PREFIX ++ stringify containerId

/-- `Docker::Container` as consumed here: the docker-assigned id, the name,
and the root pid. -/
structure DockerContainer where
  id : MStr
  name : MStr
  pid : Option Nat
deriving DecidableEq, Repr

/-- `strings::remove(s, prefix, strings::PREFIX)`: strip the prefix when
present. -/
def removePrefix (s p : MStr) : MStr :=
  if p.isPrefixOf s then s.drop p.length else s

/-- Free function `parse(const Docker::Container&)`: recover the `ContainerID`
from a docker container's name, accepting `DOCKER_NAME_PREFIX…` or
`"/" + DOCKER_NAME_PREFIX…`; `none` for containers Mesos did not start. -/
def parse (container : DockerContainer) : Option ContainerID :=
  let name : Option MStr :=
    if DOCKER_NAME_PREFIX.isPrefixOf container.name then
      some (removePrefix container.name DOCKER_NAME_PREFIX)
    else if (str "/" ++ DOCKER_NAME_PREFIX).isPrefixOf container.name then
      some (removePrefix container.name (str "/" ++ DOCKER_NAME_PREFIX))
    else none
  match name with
  | some n => some ⟨n⟩
  | none => none

/-! ## wait -/

/-- `DockerContainerizerProcess::wait`: fail with unknown container when no
promise is installed, otherwise return the promise's future (observed here as
the promise's state). -/
def wait (s : DCP) (containerId : ContainerID) :
    Except MStr PromiseState :=
  if ¬ containsKey s.promises containerId then
    .error (str "Unknown container: " ++ stringify containerId)
  else
    match lookupKey s.promises containerId with
    | some p => .ok p
    | none => .error (str "Unknown container: " ++ stringify containerId)

/-- `DockerContainerizerProcess::containers`: the keys of `promises`. -/
def containers (s : DCP) : List ContainerID := s.promises.map Prod.fst

/-! ## destroy chain -/

/-- A `docker kill` request: `docker.kill(target, force)`. The target is a
container name (in `destroy`) or a docker-assigned container id (in
`_recover`). -/
structure KillCmd where
  target : MStr
  force : Bool
deriving DecidableEq, Repr

/-- `DockerContainerizerProcess::destroy`: ignore unknown ids, return if a
destroy is already in progress, otherwise latch `destroying` and issue
`docker.kill(containerName(containerId), true)` (whose completion is deferred
to `_destroy`). -/
def destroy (s : DCP) (containerId : ContainerID) (_killed : Bool) :
    DCP × Option KillCmd :=
  if ¬ containsKey s.promises containerId then
    (s, none)
  else if containerId ∈ s.destroying then
    (s, none)
  else
    ({ s with destroying := containerId :: s.destroying },
     some ⟨containerName containerId, true⟩)

/-- The completion of a `Future<Nothing>` (the `docker.kill` future observed
by `_destroy`): ready, failed with a message, or discarded. -/
inductive FutureNothing where
  | ready
  | failedF (msg : MStr)
  | discarded
deriving DecidableEq, Repr

/-- `DockerContainerizerProcess::_destroy` (continuation of the kill future).
On a non-ready future: fail the termination promise with
`"Failed to destroy container: <cause>"` and erase the `destroying` latch,
leaving the record in place. On a ready future: install `statuses[id] = None()`
when no status is being reaped, and arm `__destroy` on the status future
(returned boolean). -/
def _destroy (s : DCP) (containerId : ContainerID) (_killed : Bool)
    (future : FutureNothing) : DCP × Bool :=
  match future with
  | .ready =>
      if ¬ containsKey s.statuses containerId then
        ({ s with statuses := putKey s.statuses containerId (.ready none) },
         true)
      else
        (s, true)
  | .failedF msg =>
      ({ s with
          promises := putKey s.promises containerId
            (.failed (str "Failed to destroy container: " ++ msg)),
          destroying := eraseId s.destroying containerId },
       false)
  | .discarded =>
      ({ s with
          promises := putKey s.promises containerId
            (.failed (str "Failed to destroy container: " ++
              str "discarded future")),
          destroying := eraseId s.destroying containerId },
       false)

/-- The completion of the `Future<Option<int>>` status future observed by
`__destroy`. -/
inductive FutureOptionInt where
  | ready (v : Option Int)
  | failedF (msg : MStr)
  | discarded
deriving DecidableEq, Repr

/-- `DockerContainerizerProcess::__destroy` (final step): build the
`Termination` (status only when the future is ready with a value), publish it
on the promise, then erase `destroying`, `promises` and `statuses` for the id.
Returns the published termination alongside the new state. -/
def __destroy (s : DCP) (containerId : ContainerID) (killed : Bool)
    (status : FutureOptionInt) : DCP × Termination :=
  let termination : Termination :=
    { killed := killed
      status :=
        match status with
        | .ready (some v) => some v
        | _ => none
      message :=
        if killed then str "Docker task killed"
        else str "Docker process terminated" }
  ({ s with
      destroying := eraseId s.destroying containerId,
      promises := eraseKey s.promises containerId,
      statuses := eraseKey s.statuses containerId },
   termination)

/-! ## update chain -/

/-- Modelled from the spec: `CPU_SHARES_PER_CPU` comes from
`slave/containerizer/isolators/cgroups/cpushare.hpp`, which is not under
`src/`; the spec's update-scaling scenario fixes it at 1024
(`cpu.shares = max(1024 × 4, MIN) = 4096`). -/
def CPU_SHARES_PER_CPU : Nat := 1024

/-- Modelled from the spec: `MIN_CPU_SHARES` comes from `cpushare.hpp`, not
under `src/`; the spec leaves its value symbolic (`MIN`). -/
def MIN_CPU_SHARES : Nat := 10

/-- Modelled from the spec: `MIN_MEMORY` comes from
`slave/containerizer/isolators/cgroups/mem.hpp`, not under `src/`; the spec
uses it only as the floor in `limit = max(mem, MIN_MEMORY)`. -/
def MIN_MEMORY : Nat := 32 * 1024 * 1024

/-- A `docker inspect` request. -/
structure InspectCmd where
  name : MStr
deriving DecidableEq, Repr

/-- `DockerContainerizerProcess::update` (Linux): ignore unknown containers,
store the resources for `usage()`, return immediately when neither cpus nor
mem is present, otherwise issue `docker.inspect(containerName(containerId))`
(whose completion is deferred to `_update`). -/
def update (s : DCP) (containerId : ContainerID) (r : Resources) :
    DCP × Option InspectCmd :=
  if ¬ containsKey s.promises containerId then
    (s, none)
  else
    let s' := { s with resources := putKey s.resources containerId r }
    if ¬ r.cpus.isSome ∧ ¬ r.mem.isSome then
      (s', none)
    else
      (s', some ⟨containerName containerId⟩)

/-- A write to a cgroup control file performed by `_update`, carrying the
value written. -/
inductive CgroupWrite where
  | cpuShares (v : Nat)
  | memorySoftLimitInBytes (v : Nat)
  | memoryLimitInBytes (v : Nat)
deriving DecidableEq, Repr

/-- The environment `_update` reads on the host: the cached cgroup
hierarchies, the pid's cgroups, the outcome each control-file write would
have (`none` = success), and the current `memory.limit_in_bytes`. A
`Result<string>` is `Except err (Option α)`; a `Try<Bytes>` is
`Except err Nat`. -/
structure CgroupsEnv where
  cpuHierarchy : Except MStr (Option MStr)
  memoryHierarchy : Except MStr (Option MStr)
  cpuCgroup : Except MStr (Option MStr)
  memoryCgroup : Except MStr (Option MStr)
  cpuSharesWriteError : Option MStr
  memorySoftWriteError : Option MStr
  currentLimit : Except MStr Nat
  memoryHardWriteError : Option MStr

/-- The "update the CPU shares (if applicable)" section of `_update`: guarded
by `cpuHierarchy.isSome() && cpuCgroup.isSome() && resources.cpus().isSome()`;
writes `cpu.shares = max(CPU_SHARES_PER_CPU * cpus, MIN_CPU_SHARES)`. -/
def updateCpu (env : CgroupsEnv) (r : Resources) :
    List CgroupWrite × Except MStr Unit :=
  match env.cpuHierarchy, env.cpuCgroup, r.cpus with
  | .ok (some _), .ok (some _), some cpuShares =>
      let shares : Nat :=
        max (Int.toNat ((CPU_SHARES_PER_CPU : ℚ) * cpuShares).floor)
          MIN_CPU_SHARES
      (match env.cpuSharesWriteError with
       | some e => ([], .error (str "Failed to update 'cpu.shares': " ++ e))
       | none => ([.cpuShares shares], .ok ()))
  | _, _, _ => ([], .ok ())

/-- The "update the memory limits (if applicable)" section of `_update`:
guarded by `memoryHierarchy.isSome() && memoryCgroup.isSome() &&
resources.mem().isSome()`; always writes the soft limit
`max(mem, MIN_MEMORY)`, then reads the current hard limit and writes the new
limit only when it is strictly higher. -/
def updateMemory (env : CgroupsEnv) (r : Resources) :
    List CgroupWrite × Except MStr Unit :=
  match env.memoryHierarchy, env.memoryCgroup, r.mem with
  | .ok (some _), .ok (some _), some mem =>
      let limit : Nat := max mem MIN_MEMORY
      (match env.memorySoftWriteError with
       | some e =>
           ([], .error (str "Failed to set 'memory.soft_limit_in_bytes': " ++ e))
       | none =>
           match env.currentLimit with
           | .error e =>
               ([.memorySoftLimitInBytes limit],
                .error (str "Failed to read 'memory.limit_in_bytes': " ++ e))
           | .ok currentLimit =>
               if currentLimit < limit then
                 match env.memoryHardWriteError with
                 | some e =>
                     ([.memorySoftLimitInBytes limit],
                      .error (str "Failed to set 'memory.limit_in_bytes': " ++ e))
                 | none =>
                     ([.memorySoftLimitInBytes limit,
                       .memoryLimitInBytes limit], .ok ())
               else
                 ([.memorySoftLimitInBytes limit], .ok ()))
  | _, _, _ => ([], .ok ())

/-- `DockerContainerizerProcess::_update` (continuation of the inspect, Linux
path): check the hierarchies, return when the container has no pid, determine
the pid's cpu cgroup, run the cpu section, determine the memory cgroup, run
the memory section. Returns the control-file writes performed and the
resulting future. -/
def _update (env : CgroupsEnv) (r : Resources)
    (containerPid : Option Nat) : List CgroupWrite × Except MStr Unit :=
  match env.cpuHierarchy with
  | .error e =>
      ([], .error (str "Failed to determine the cgroup hierarchy where the 'cpu' subsystem is mounted: " ++ e))
  | .ok _ =>
  match env.memoryHierarchy with
  | .error e =>
      ([], .error (str "Failed to determine the cgroup hierarchy where the 'memory' subsystem is mounted: " ++ e))
  | .ok _ =>
  match containerPid with
  | none => ([], .ok ())
  | some _ =>
  match env.cpuCgroup with
  | .error e =>
      ([], .error (str "Failed to determine cgroup for the 'cpu' subsystem: " ++ e))
  | .ok _ =>
  match updateCpu env r with
  | (ws, .error e) => (ws, .error e)
  | (ws, .ok _) =>
  match env.memoryCgroup with
  | .error e =>
      (ws, .error (str "Failed to determine cgroup for the 'memory' subsystem: " ++ e))
  | .ok _ =>
  match updateMemory env r with
  | (ws2, res) => (ws ++ ws2, res)

/-! ## launch -/

/-- `mesos::CommandInfo::ContainerInfo`: the image URI. -/
structure ContainerInfo where
  image : MStr
deriving DecidableEq, Repr

/-- `mesos::CommandInfo` as consumed here: the optional container block and
the command value. -/
structure CommandInfo where
  container : Option ContainerInfo
  value : MStr
deriving DecidableEq, Repr

/-- `mesos::ExecutorInfo` as consumed here. -/
structure ExecutorInfo where
  command : CommandInfo
  resources : Resources
deriving DecidableEq, Repr

/-- `mesos::TaskInfo` as consumed here: the optional command and the task's
resources. -/
structure TaskInfo where
  command : Option CommandInfo
  resources : Resources
deriving DecidableEq, Repr

/-- A `docker run` request: `docker.run(image, command, name, resources)`
(the environment map, built by the external `executorEnvironment` helper, is
not modelled). -/
structure RunCmd where
  image : MStr
  command : MStr
  name : MStr
  resources : Resources
deriving DecidableEq, Repr

/-- The immediate outcome of a `launch` call: a failed future, a resolved
boolean, or a pending `docker.run`. -/
inductive LaunchResult where
  | failure (msg : MStr)
  | result (b : Bool)
  | run (cmd : RunCmd)
deriving DecidableEq, Repr

/-- Executor-mode `DockerContainerizerProcess::launch`: fail when a record
exists; resolve `false` when the executor's command has no container block or
its image does not begin with `"docker:///"`; otherwise install the
termination promise and issue `docker.run`. -/
def launchExecutor (s : DCP) (containerId : ContainerID)
    (executorInfo : ExecutorInfo) : DCP × LaunchResult :=
  if containsKey s.promises containerId then
    (s, .failure (str "Container already started"))
  else
    let command := executorInfo.command
    match command.container with
    | none => (s, .result false)
    | some c =>
        if ¬ (str "docker:///").isPrefixOf c.image then
          (s, .result false)
        else
          ({ s with promises := putKey s.promises containerId .pending },
           .run ⟨removePrefix c.image (str "docker:///"), command.value,
                 containerName containerId, executorInfo.resources⟩)

/-- Task-mode `DockerContainerizerProcess::launch`: fail when a record
exists; resolve `false` when the task has no command, when its command has no
container block, or when the image does not begin with `"docker:///"`;
otherwise install the termination promise, store the task's resources for
`usage()`, and issue `docker.run`. -/
def launchTask (s : DCP) (containerId : ContainerID) (taskInfo : TaskInfo)
    (_executorInfo : ExecutorInfo) : DCP × LaunchResult :=
  if containsKey s.promises containerId then
    (s, .failure (str "Container already started"))
  else
    match taskInfo.command with
    | none => (s, .result false)
    | some command =>
        match command.container with
        | none => (s, .result false)
        | some c =>
            if ¬ (str "docker:///").isPrefixOf c.image then
              (s, .result false)
            else
              ({ s with
                  promises := putKey s.promises containerId .pending,
                  resources := putKey s.resources containerId
                    taskInfo.resources },
               .run ⟨removePrefix c.image (str "docker:///"), command.value,
                     containerName containerId, taskInfo.resources⟩)

/-! ## recover -/

/-- `state::RunState` as consumed here. -/
structure RunState where
  id : Option ContainerID
  forkedPid : Option Nat
  completed : Bool
deriving DecidableEq, Repr

/-- `state::ExecutorState` as consumed here: whether its info was recovered,
its latest run, and its runs keyed by container id. -/
structure ExecutorState where
  info : Option Unit
  latest : Option ContainerID
  runs : List (ContainerID × RunState)
deriving DecidableEq, Repr

/-- `state::FrameworkState` as consumed here. -/
structure FrameworkState where
  executors : List ExecutorState
deriving DecidableEq, Repr

/-- `state::SlaveState` as consumed here. -/
structure SlaveState where
  frameworks : List FrameworkState
deriving DecidableEq, Repr

/-- The executors of the snapshot in traversal order
(`foreachvalue` frameworks, then `foreachvalue` executors). -/
def allExecutors (state : SlaveState) : List ExecutorState :=
  state.frameworks.foldr (fun f acc => f.executors ++ acc) []

/-- How `recover` aborts: a `CHECK_SOME`/`CHECK_EQ` violation on the latest
run, or the duplicate-pid failure
(`"Detected duplicate pid <pid> for container <id>"`). -/
inductive RecoverErr where
  | checkFailed
  | duplicatePid (pid : Nat) (containerId : ContainerID)
deriving DecidableEq, Repr

/-- `pids.containsValue(pid)`. -/
def containsValue (l : List (ContainerID × Nat)) (v : Nat) : Bool :=
  l.any (fun p => p.2 = v)

/-- The snapshot loop of `DockerContainerizerProcess::recover`: for each
executor skip when its info or latest run is missing, check the latest run's
record, skip when no forked pid was checkpointed or the run completed,
otherwise install a termination promise, begin reaping the pid with the
`reaped` callback attached, and fail on a duplicate pid. -/
def recoverExecs (s : DCP) (pids : List (ContainerID × Nat)) :
    List ExecutorState → DCP × List (ContainerID × Nat) × Option RecoverErr
  | [] => (s, pids, none)
  | executor :: rest =>
      if executor.info.isNone then
        recoverExecs s pids rest
      else
        match executor.latest with
        | none => recoverExecs s pids rest
        | some containerId =>
            match lookupKey executor.runs containerId with
            | none => (s, pids, some .checkFailed)
            | some run =>
                if run.id ≠ some containerId then
                  (s, pids, some .checkFailed)
                else
                  match run.forkedPid with
                  | none => recoverExecs s pids rest
                  | some pid =>
                      if run.completed then
                        recoverExecs s pids rest
                      else
                        let s' : DCP :=
                          { s with
                              promises := putKey s.promises containerId
                                .pending,
                              statuses := putKey s.statuses containerId
                                (.reap pid),
                              reapedCallbacks :=
                                containerId :: s.reapedCallbacks }
                        if containsValue pids pid then
                          (s', pids, some (.duplicatePid pid containerId))
                        else
                          recoverExecs s' (putKey pids containerId pid) rest

/-- `DockerContainerizerProcess::recover`: run the snapshot loop when a state
is given (on success the caller then issues
`docker.ps(true, DOCKER_NAME_PREFIX)` and continues in `_recover`). -/
def recover (s : DCP) (state : Option SlaveState) : DCP × Option RecoverErr :=
  match state with
  | none => (s, none)
  | some st =>
      match recoverExecs s [] (allExecutors st) with
      | (s', _, e) => (s', e)

/-- `DockerContainerizerProcess::_recover` (continuation of the `docker.ps`):
for each listed container whose name parses to a ContainerID that no status
is being reaped for, issue `docker.kill(container.id, true)`. -/
def _recover (s : DCP) : List DockerContainer → List KillCmd
  | [] => []
  | container :: rest =>
      match parse container with
      | none => _recover s rest
      | some id =>
          if ¬ containsKey s.statuses id then
            ⟨container.id, true⟩ :: _recover s rest
          else
            _recover s rest

/-! ## Map lemmas -/

theorem lookupKey_putKey_self {α : Type} (l : List (ContainerID × α))
    (k : ContainerID) (v : α) : lookupKey (putKey l k v) k = some v := by
  induction l with
  | nil => simp [putKey, lookupKey]
  | cons hd tl ih =>
      obtain ⟨k', v'⟩ := hd
      by_cases h : k' = k
      · simp [putKey, h, lookupKey]
      · simp [putKey, h, lookupKey, ih]

theorem lookupKey_putKey_ne {α : Type} (l : List (ContainerID × α))
    (k k' : ContainerID) (v : α) (h : k ≠ k') :
    lookupKey (putKey l k v) k' = lookupKey l k' := by
  induction l with
  | nil => simp [putKey, lookupKey, h]
  | cons hd tl ih =>
      obtain ⟨k'', v''⟩ := hd
      by_cases h2 : k'' = k
      · subst h2
        simp [putKey, lookupKey, h]
      · simp [putKey, h2, lookupKey, ih]

theorem lookupKey_eraseKey_self {α : Type} (l : List (ContainerID × α))
    (k : ContainerID) : lookupKey (eraseKey l k) k = none := by
  induction l with
  | nil => simp [eraseKey, lookupKey]
  | cons hd tl ih =>
      obtain ⟨k', v'⟩ := hd
      by_cases h : k' = k
      · simp [eraseKey, h, ih]
      · simp [eraseKey, h, lookupKey, ih]

theorem lookupKey_eraseKey_ne {α : Type} (l : List (ContainerID × α))
    (k k' : ContainerID) (h : k ≠ k') :
    lookupKey (eraseKey l k) k' = lookupKey l k' := by
  induction l with
  | nil => simp [eraseKey]
  | cons hd tl ih =>
      obtain ⟨k'', v''⟩ := hd
      by_cases h2 : k'' = k
      · subst h2
        simp [eraseKey, lookupKey, h, Ne.symm h, ih]
      · simp [eraseKey, h2, lookupKey, ih]

theorem containsKey_putKey_self {α : Type} (l : List (ContainerID × α))
    (k : ContainerID) (v : α) : containsKey (putKey l k v) k = true := by
  simp [containsKey, lookupKey_putKey_self]

theorem mem_eraseId (l : List ContainerID) (x k : ContainerID) :
    x ∈ eraseId l k ↔ x ∈ l ∧ x ≠ k := by
  simp [eraseId]

theorem not_mem_eraseId_self (l : List ContainerID) (k : ContainerID) :
    k ∉ eraseId l k := by
  simp [eraseId]

/-! ## C5: naming -/

/-- C5: `containerName(id)` is the fixed prefix `"mesos-"` followed by
`stringify(id)`; it begins with the prefix; and `parse` returns the id back
both for a runtime container so named and for one with a leading slash
prepended by the runtime. -/
theorem containerName_parse_roundtrip (id : ContainerID) (dockerId : MStr)
    (pid : Option Nat) :
    containerName id = str "mesos-" ++ stringify id ∧
    DOCKER_NAME_PREFIX.isPrefixOf (containerName id) = true ∧
    parse ⟨dockerId, containerName id, pid⟩ = some id ∧
    parse ⟨dockerId, str "/" ++ containerName id, pid⟩ = some id := by
  refine ⟨rfl, ?_, ?_, ?_⟩
  · simp [containerName, List.isPrefixOf_iff_prefix]
  · have hpre : DOCKER_NAME_PREFIX.isPrefixOf (containerName id) = true := by
      simp [containerName, List.isPrefixOf_iff_prefix]
    simp only [parse, hpre, if_pos, removePrefix]
    simp [containerName, DOCKER_NAME_PREFIX, stringify, str]
  · have hslash : str "/" ++ containerName id = '/' :: containerName id := rfl
    have hnot : DOCKER_NAME_PREFIX.isPrefixOf ('/' :: containerName id)
        = false := by
      simp [DOCKER_NAME_PREFIX, str, List.isPrefixOf]
    have hpre : (str "/" ++ DOCKER_NAME_PREFIX).isPrefixOf
        ('/' :: containerName id) = true := by
      simp only [containerName]
      simp [DOCKER_NAME_PREFIX, str, List.isPrefixOf_iff_prefix,
        List.prefix_cons_inj]
    simp only [parse, hslash, hnot, hpre, Bool.false_eq_true, if_false,
      if_pos, removePrefix]
    simp [containerName, DOCKER_NAME_PREFIX, stringify, str]

/-! ## C1: the final destroy step -/

/-- A concrete container id for the C1 scenario. -/
def cidA : ContainerID := ⟨['a']⟩

/-- A concrete resources value stored for `cidA`. -/
def resA : Resources := ⟨none, some 7⟩

/-- A concrete containerizer state mid-destroy for `cidA`: promise pending,
status future ready, resources stored, destroying latched. -/
def s0C1 : DCP :=
  ⟨[(cidA, .pending)], [(cidA, .ready (some 0))], [(cidA, resA)], [cidA], []⟩

/-- C1 counterexample: at the final destroy step for `cidA`, `__destroy`
erases the promise, the status entry and the destroying flag, but the claim's
"stored resources" part fails — the `resources` entry for `cidA` survives
(the code never erases `resources`). -/
theorem destroyFinal_keeps_resources_cex :
    lookupKey ((__destroy s0C1 cidA true (.ready (some 0))).1).resources cidA
      = some resA ∧
    ¬ (lookupKey ((__destroy s0C1 cidA true (.ready (some 0))).1).resources
        cidA = none) := by
  refine ⟨by decide, by decide⟩

/-- C1 (amended): publishing the Termination erases the id's termination
promise, exit-status entry and destroying flag — the stored resources entry
is left in place — so a subsequent `wait(id)` fails with unknown
container. -/
theorem destroyFinal_erases_record (s : DCP) (containerId : ContainerID)
    (killed : Bool) (status : FutureOptionInt)
    (h : containsKey s.promises containerId = true) :
    lookupKey ((__destroy s containerId killed status).1).promises containerId
      = none ∧
    lookupKey ((__destroy s containerId killed status).1).statuses containerId
      = none ∧
    containerId ∉ ((__destroy s containerId killed status).1).destroying ∧
    ((__destroy s containerId killed status).1).resources = s.resources ∧
    wait (__destroy s containerId killed status).1 containerId
      = .error (str "Unknown container: " ++ stringify containerId) := by
  refine ⟨?_, ?_, ?_, rfl, ?_⟩
  · simp [__destroy, lookupKey_eraseKey_self]
  · simp [__destroy, lookupKey_eraseKey_self]
  · simp [__destroy, not_mem_eraseId_self]
  · simp [wait, containsKey, __destroy, lookupKey_eraseKey_self]

/-- C1 witness: the amended theorem at the concrete mid-destroy state. -/
theorem destroyFinal_erases_record_witness :
    containsKey s0C1.promises cidA = true ∧
    lookupKey ((__destroy s0C1 cidA true (.ready (some 0))).1).promises cidA
      = none ∧
    wait (__destroy s0C1 cidA true (.ready (some 0))).1 cidA
      = .error (str "Unknown container: " ++ stringify cidA) :=
  ⟨by decide,
   (destroyFinal_erases_record s0C1 cidA true (.ready (some 0))
     (by decide)).1,
   (destroyFinal_erases_record s0C1 cidA true (.ready (some 0))
     (by decide)).2.2.2.2⟩

/-! ## C4: kill failure during destroy -/

/-- C4: when the `docker.kill` issued by `destroy` fails, `_destroy` fails
the termination promise with `"Failed to destroy container: <cause>"`,
clears the `destroying` latch, and erases nothing — the promise record stays
(so `wait` observes the failure), and `statuses` and `resources` are
untouched. -/
theorem destroyKillFailed_keeps_record (s : DCP) (containerId : ContainerID)
    (killed : Bool) (cause : MStr)
    (h : containsKey s.promises containerId = true) :
    lookupKey ((_destroy s containerId killed (.failedF cause)).1).promises
        containerId
      = some (.failed (str "Failed to destroy container: " ++ cause)) ∧
    containerId ∉ ((_destroy s containerId killed (.failedF cause)).1).destroying ∧
    containsKey ((_destroy s containerId killed (.failedF cause)).1).promises
        containerId = true ∧
    ((_destroy s containerId killed (.failedF cause)).1).statuses = s.statuses ∧
    ((_destroy s containerId killed (.failedF cause)).1).resources = s.resources ∧
    wait (_destroy s containerId killed (.failedF cause)).1 containerId
      = .ok (.failed (str "Failed to destroy container: " ++ cause)) := by
  refine ⟨?_, ?_, ?_, rfl, rfl, ?_⟩
  · simp [_destroy, lookupKey_putKey_self]
  · simp [_destroy, not_mem_eraseId_self]
  · simp [_destroy, containsKey, lookupKey_putKey_self]
  · simp [wait, containsKey, _destroy, lookupKey_putKey_self]

/-- A concrete container id for the C4 scenario. -/
def cidD : ContainerID := ⟨['d']⟩

/-- A concrete destroying-in-progress state for `cidD`. -/
def s0C4 : DCP := ⟨[(cidD, .pending)], [(cidD, .reap 42)], [], [cidD], []⟩

/-- C4 witness: the theorem at a concrete state with a concrete kill-failure
cause. -/
theorem destroyKillFailed_keeps_record_witness :
    containsKey s0C4.promises cidD = true ∧
    wait (_destroy s0C4 cidD true (.failedF (str "no such container"))).1 cidD
      = .ok (.failed (str "Failed to destroy container: " ++
          str "no such container")) :=
  ⟨by decide,
   (destroyKillFailed_keeps_record s0C4 cidD true (str "no such container")
     (by decide)).2.2.2.2.2⟩

/-! ## C2: update versus the destroying flag -/

/-- A concrete container id for the C2 scenario. -/
def cidB : ContainerID := ⟨['b']⟩

/-- The resources stored for `cidB` before the update. -/
def resB0 : Resources := ⟨none, some 64⟩

/-- The resources passed to the update. -/
def resB1 : Resources := ⟨none, some 128⟩

/-- A concrete state in which `cidB` has its destroying flag set while its
record is still present (destroy initiated, `__destroy` not yet run). -/
def s0C2 : DCP := ⟨[(cidB, .pending)], [], [(cidB, resB0)], [cidB], []⟩

/-- C2 counterexample: with `cidB`'s destroying flag set, `update` still has
observable effects — it overwrites the stored resources entry and issues the
`docker inspect` that leads to the cgroup writes, because `update` only
checks for the promise record and never consults `destroying`. -/
theorem update_during_destroying_cex :
    cidB ∈ s0C2.destroying ∧
    lookupKey s0C2.resources cidB = some resB0 ∧
    lookupKey ((update s0C2 cidB resB1).1).resources cidB = some resB1 ∧
    (update s0C2 cidB resB1).2 = some ⟨containerName cidB⟩ := by
  refine ⟨by decide, by decide, by decide, by decide⟩

/-- C2 (amended): `update` is gated on the promise record, not on the
`destroying` flag. For an id with no installed record — in particular once
destroy's final step has erased the record — `update(id, r)` has no
observable effect at all; while `destroying` is merely set and the record is
still present, `update` is not suppressed: it overwrites the stored resources
entry. -/
theorem update_gated_on_record (s : DCP) (containerId : ContainerID)
    (r : Resources) :
    (containsKey s.promises containerId = false →
      update s containerId r = (s, none)) ∧
    (containsKey s.promises containerId = true →
      lookupKey ((update s containerId r).1).resources containerId = some r ∧
      ((update s containerId r).1).promises = s.promises ∧
      ((update s containerId r).1).destroying = s.destroying) := by
  constructor
  · intro h
    simp [update, h]
  · intro h
    by_cases hg : r.cpus = none ∧ r.mem = none
    · simp [update, h, hg, lookupKey_putKey_self]
    · simp [update, h, hg, lookupKey_putKey_self]

/-- C2 witness: the amended theorem applied on the state left after the
record was erased by `__destroy` (no effect) and on the concrete mid-destroy
state (resources stored). -/
theorem update_gated_on_record_witness :
    update (__destroy s0C2 cidB true (.ready none)).1 cidB resB1
      = ((__destroy s0C2 cidB true (.ready none)).1, none) ∧
    lookupKey ((update s0C2 cidB resB1).1).resources cidB = some resB1 :=
  ⟨(update_gated_on_record (__destroy s0C2 cidB true (.ready none)).1 cidB
      resB1).1 (by decide),
   ((update_gated_on_record s0C2 cidB resB1).2 (by decide)).1⟩

/-! ## C7: not-for-us launches -/

/-- C7: in both launch modes, when the relevant `CommandInfo` has no
container block or its image does not begin with `"docker:///"`, launch
resolves `false` (not a failure) and the state is returned unchanged — no
record installed, `containers()` unchanged, and no `docker run` issued (the
result is `.result false`, not `.run`). -/
theorem launch_not_for_us (s : DCP) (containerId : ContainerID)
    (executorInfo : ExecutorInfo) (taskInfo : TaskInfo)
    (command : CommandInfo)
    (h : containsKey s.promises containerId = false) :
    ((executorInfo.command.container = none ∨
      (∀ c, executorInfo.command.container = some c →
        (str "docker:///").isPrefixOf c.image = false)) →
      launchExecutor s containerId executorInfo = (s, .result false)) ∧
    (taskInfo.command = some command →
      (command.container = none ∨
       (∀ c, command.container = some c →
         (str "docker:///").isPrefixOf c.image = false)) →
      launchTask s containerId taskInfo executorInfo = (s, .result false)) := by
  constructor
  · intro hcmd
    cases hc : executorInfo.command.container with
    | none => simp [launchExecutor, h, hc]
    | some c =>
        rcases hcmd with hnone | himg
        · rw [hc] at hnone; exact absurd hnone (by simp)
        · simp [launchExecutor, h, hc, himg c hc]
  · intro htask hcmd
    cases hc : command.container with
    | none => simp [launchTask, h, htask, hc]
    | some c =>
        rcases hcmd with hnone | himg
        · rw [hc] at hnone; exact absurd hnone (by simp)
        · simp [launchTask, h, htask, hc, himg c hc]

/-- A concrete container id for the C7 scenario. -/
def cidE : ContainerID := ⟨['e']⟩

/-- An executor whose command's image uses a non-docker URI
(`"file:///x"`). -/
def execInfoE : ExecutorInfo := ⟨⟨some ⟨str "file:///x"⟩, str "run"⟩, ⟨none, none⟩⟩

/-- A task whose command has no container block. -/
def taskInfoE : TaskInfo := ⟨some ⟨none, str "run"⟩, ⟨none, none⟩⟩

/-- C7 witness: both launch modes resolve `false` without effects at concrete
not-for-us inputs on the empty state. -/
theorem launch_not_for_us_witness :
    launchExecutor DCP.empty cidE execInfoE = (DCP.empty, .result false) ∧
    launchTask DCP.empty cidE taskInfoE execInfoE
      = (DCP.empty, .result false) :=
  ⟨(launch_not_for_us DCP.empty cidE execInfoE taskInfoE ⟨none, str "run"⟩
      (by decide)).1
    (Or.inr (by intro c hc; cases hc; decide)),
   (launch_not_for_us DCP.empty cidE execInfoE taskInfoE ⟨none, str "run"⟩
      (by decide)).2 rfl (Or.inl rfl)⟩

/-! ## C3: destroy idempotence -/

/-- `n` consecutive `destroy(id, killed)` calls, counting how many issued a
`docker.kill` (each issued kill is the head of exactly one
`_destroy`/`__destroy` continuation chain, and only `__destroy` publishes a
Termination). -/
def destroyN : DCP → ContainerID → Bool → Nat → DCP × Nat
  | s, _, _, 0 => (s, 0)
  | s, containerId, killed, n + 1 =>
      match destroy s containerId killed with
      | (s', a) =>
          match destroyN s' containerId killed n with
          | (s'', k) => (s'', (if a.isSome then 1 else 0) + k)

theorem destroy_of_mem_destroying (s : DCP) (containerId : ContainerID)
    (killed : Bool) (h : containerId ∈ s.destroying) :
    destroy s containerId killed = (s, none) := by
  by_cases hp : containsKey s.promises containerId = true
  · simp [destroy, hp, h]
  · simp [destroy, hp]

theorem destroy_of_no_record (s : DCP) (containerId : ContainerID)
    (killed : Bool) (h : containsKey s.promises containerId = false) :
    destroy s containerId killed = (s, none) := by
  simp [destroy, h]

theorem destroyN_of_mem_destroying (s : DCP) (containerId : ContainerID)
    (killed : Bool) (n : Nat) (h : containerId ∈ s.destroying) :
    destroyN s containerId killed n = (s, 0) := by
  induction n with
  | zero => simp [destroyN]
  | succ n ih => simp [destroyN, destroy_of_mem_destroying s containerId killed h, ih]

theorem destroyN_of_no_record (s : DCP) (containerId : ContainerID)
    (killed : Bool) (n : Nat) (h : containsKey s.promises containerId = false) :
    destroyN s containerId killed n = (s, 0) := by
  induction n with
  | zero => simp [destroyN]
  | succ n ih => simp [destroyN, destroy_of_no_record s containerId killed h, ih]

/-- C3: destroy is idempotent. Any number of consecutive `destroy(id,
killed)` calls issue at most one `docker.kill` — hence start at most one
`_destroy`/`__destroy` continuation chain, which is the only publisher of a
Termination on the wait future; a `destroy` while the destroying flag is
already set returns without effect, and a `destroy` for an id with no record
returns without effect. -/
theorem destroy_idempotent (s : DCP) (containerId : ContainerID)
    (killed : Bool) (n : Nat) :
    (destroyN s containerId killed n).2 ≤ 1 ∧
    (containerId ∈ s.destroying →
      destroy s containerId killed = (s, none)) ∧
    (containsKey s.promises containerId = false →
      destroy s containerId killed = (s, none)) := by
  refine ⟨?_, destroy_of_mem_destroying s containerId killed,
    destroy_of_no_record s containerId killed⟩
  cases n with
  | zero => simp [destroyN]
  | succ n =>
      by_cases hp : containsKey s.promises containerId = true
      · by_cases hd : containerId ∈ s.destroying
        · simp [destroyN_of_mem_destroying s containerId killed _ hd]
        · have hstep : destroy s containerId killed =
              ({ s with destroying := containerId :: s.destroying },
               some ⟨containerName containerId, true⟩) := by
            simp [destroy, hp, hd]
          have hrest : destroyN
              { s with destroying := containerId :: s.destroying }
              containerId killed n =
              ({ s with destroying := containerId :: s.destroying }, 0) :=
            destroyN_of_mem_destroying _ _ _ _ (by simp)
          simp [destroyN, hstep, hrest]
      · have hp' : containsKey s.promises containerId = false := by
          simpa using hp
        simp [destroyN_of_no_record s containerId killed _ hp']

/-- A concrete live-container state for the C3 witness. -/
def s0C3 : DCP := ⟨[(⟨['c']⟩, .pending)], [(⟨['c']⟩, .reap 5)], [], [], []⟩

/-- C3 witness: five consecutive destroys of the live container issue exactly
at most one kill; destroy on the empty state is a no-op. -/
theorem destroy_idempotent_witness :
    (destroyN s0C3 ⟨['c']⟩ true 5).2 ≤ 1 ∧
    destroy DCP.empty ⟨['c']⟩ true = (DCP.empty, none) :=
  ⟨(destroy_idempotent s0C3 ⟨['c']⟩ true 5).1,
   (destroy_idempotent DCP.empty ⟨['c']⟩ true 0).2.2 (by decide)⟩

/-! ## C6: memory limits in `_update` -/

theorem updateCpu_ok (env : CgroupsEnv) (r : Resources)
    (h : env.cpuSharesWriteError = none) :
    (updateCpu env r).2 = .ok () ∧
    ∀ w ∈ (updateCpu env r).1, ∃ n, w = CgroupWrite.cpuShares n := by
  obtain ⟨ch, mh, cc, mc, cwe, mswe, cl, mhwe⟩ := env
  obtain ⟨cpus, mem⟩ := r
  simp only at h
  subst h
  rcases ch with e | ⟨_ | chp⟩ <;> rcases cc with e2 | ⟨_ | ccp⟩ <;>
    rcases cpus with _ | c <;> simp [updateCpu]

theorem updateMemory_spec (env : CgroupsEnv) (r : Resources) (memv : Nat)
    (mhp mcp : MStr)
    (hmem : r.mem = some memv)
    (hmh : env.memoryHierarchy = .ok (some mhp))
    (hmc : env.memoryCgroup = .ok (some mcp)) :
    (env.memorySoftWriteError = none →
      CgroupWrite.memorySoftLimitInBytes (max memv MIN_MEMORY)
        ∈ (updateMemory env r).1) ∧
    (∀ v, CgroupWrite.memoryLimitInBytes v ∈ (updateMemory env r).1 →
      ∃ cur, env.currentLimit = .ok cur ∧ cur < v ∧
        v = max memv MIN_MEMORY) := by
  obtain ⟨ch, mh, cc, mc, cwe, mswe, cl, mhwe⟩ := env
  obtain ⟨cpus, mem⟩ := r
  simp only at hmem hmh hmc
  subst hmem hmh hmc
  constructor
  · intro hsw
    simp only at hsw
    subst hsw
    rcases cl with e2 | cur
    · simp [updateMemory]
    · by_cases hlt : cur < max memv MIN_MEMORY
      · rcases mhwe with _ | e3 <;> simp [updateMemory, hlt]
      · simp [updateMemory, hlt]
  · intro v hv
    rcases mswe with _ | e
    · rcases cl with e2 | cur
      · simp [updateMemory] at hv
      · by_cases hlt : cur < max memv MIN_MEMORY
        · rcases mhwe with _ | e3
          · simp [updateMemory, hlt] at hv
            subst hv
            exact ⟨cur, rfl, hlt, rfl⟩
          · simp [updateMemory, hlt] at hv
        · simp [updateMemory, hlt] at hv
    · simp [updateMemory] at hv

/-- C6: on Linux, for a container with a known root pid whose memory cgroup
is located (and whose cpu-section reads and writes do not themselves fail),
an update carrying a memory quantity always performs the
`memory.soft_limit_in_bytes = max(mem, MIN_MEMORY)` write, and any
`memory.limit_in_bytes` write it performs carries that same value and
strictly exceeds the current hard limit — `_update` never lowers
`memory.limit_in_bytes`. The `update` entry point itself issues the
`docker inspect` that feeds `_update` whenever the id has a record. -/
theorem update_never_lowers_memory_limit (s : DCP)
    (containerId : ContainerID) (env : CgroupsEnv) (r : Resources)
    (p memv : Nat) (chp : Option MStr) (ccp : Option MStr) (mhp mcp : MStr)
    (hrec : containsKey s.promises containerId = true)
    (hmem : r.mem = some memv)
    (hch : env.cpuHierarchy = .ok chp)
    (hcc : env.cpuCgroup = .ok ccp)
    (hcwe : env.cpuSharesWriteError = none)
    (hmh : env.memoryHierarchy = .ok (some mhp))
    (hmc : env.memoryCgroup = .ok (some mcp))
    (hmswe : env.memorySoftWriteError = none) :
    (update s containerId r).2 = some ⟨containerName containerId⟩ ∧
    CgroupWrite.memorySoftLimitInBytes (max memv MIN_MEMORY)
      ∈ (_update env r (some p)).1 ∧
    (∀ v, CgroupWrite.memoryLimitInBytes v ∈ (_update env r (some p)).1 →
      ∃ cur, env.currentLimit = .ok cur ∧ cur < v ∧
        v = max memv MIN_MEMORY) := by
  have hinspect : (update s containerId r).2
      = some ⟨containerName containerId⟩ := by
    simp [update, hrec, hmem]
  have hcpu := updateCpu_ok env r hcwe
  have hmemspec := updateMemory_spec env r memv mhp mcp hmem hmh hmc
  rcases hcu : updateCpu env r with ⟨ws, res⟩
  rw [hcu] at hcpu
  obtain ⟨hres, hws⟩ := hcpu
  simp only at hres
  subst hres
  rcases hmu : updateMemory env r with ⟨ws2, res2⟩
  rw [hmu] at hmemspec
  simp only at hmemspec
  have hupdate : (_update env r (some p)).1 = ws ++ ws2 := by
    simp only [_update, hch, hmh, hcc, hmc, hcu, hmu]
  refine ⟨hinspect, ?_, ?_⟩
  · rw [hupdate]
    exact List.mem_append_right ws (hmemspec.1 hmswe)
  · intro v hv
    rw [hupdate] at hv
    rcases List.mem_append.mp hv with hin | hin
    · obtain ⟨n, hn⟩ := hws _ hin
      exact absurd hn (by simp)
    · exact hmemspec.2 v hin

/-- A concrete cgroups environment for the C6 witness: both hierarchies and
cgroups located, all writes succeed, current hard limit 256 MiB. -/
def envC6 : CgroupsEnv :=
  ⟨.ok (some (str "/cpuh")), .ok (some (str "/memh")),
   .ok (some (str "cg")), .ok (some (str "cg")),
   none, none, .ok (256 * 1024 * 1024), none⟩

/-- Resources carrying 128 MiB of memory (below the current hard limit). -/
def resC6 : Resources := ⟨none, some (128 * 1024 * 1024)⟩

/-- A state in which container `f` has a record. -/
def s0C6 : DCP := ⟨[(⟨['f']⟩, .pending)], [], [], [], []⟩

/-- C6 witness: at the concrete environment the theorem yields the soft-limit
write, and (since 128 MiB < 256 MiB) the absence of any hard-limit lowering
is checked by evaluating `_update` outright. -/
theorem update_never_lowers_memory_limit_witness :
    CgroupWrite.memorySoftLimitInBytes
        (max (128 * 1024 * 1024) MIN_MEMORY)
      ∈ (_update envC6 resC6 (some 4242)).1 ∧
    (_update envC6 resC6 (some 4242)).1
      = [CgroupWrite.memorySoftLimitInBytes (128 * 1024 * 1024)] :=
  ⟨(update_never_lowers_memory_limit s0C6 ⟨['f']⟩ envC6 resC6 4242
      (128 * 1024 * 1024) (some (str "/cpuh")) (some (str "cg"))
      (str "/memh") (str "cg") (by decide) rfl rfl rfl rfl rfl rfl
      rfl).2.1,
   by decide⟩

/-! ## C9: the orphan sweep -/

/-- C9: during recovery's orphan sweep, every listed container whose name
parses to a ContainerID that is not being tracked (no status reaped for it)
receives a `docker.kill(container.id, force=true)`; conversely every issued
kill targets such a container, so containers whose names do not parse are
left untouched. -/
theorem recoverSweep_kills_exactly_orphans (s : DCP)
    (cs : List DockerContainer) :
    (∀ c ∈ cs, ∀ id, parse c = some id →
      containsKey s.statuses id = false →
      (⟨c.id, true⟩ : KillCmd) ∈ _recover s cs) ∧
    (∀ k ∈ _recover s cs, k.force = true ∧
      ∃ c ∈ cs, k.target = c.id ∧
        ∃ id, parse c = some id ∧ containsKey s.statuses id = false) := by
  induction cs with
  | nil => simp [_recover]
  | cons c rest ih =>
      constructor
      · intro c' hc' id hp hnk
        rcases List.mem_cons.mp hc' with hc' | hc'
        · subst hc'
          simp [_recover, hp, hnk]
        · have hmem := ih.1 c' hc' id hp hnk
          cases hpc : parse c with
          | none => simpa [_recover, hpc] using hmem
          | some id2 =>
              by_cases hk : containsKey s.statuses id2 = true
              · simpa [_recover, hpc, hk] using hmem
              · simp only [Bool.not_eq_true] at hk
                simp [_recover, hpc, hk]
                right
                exact hmem
      · intro k hk
        cases hpc : parse c with
        | none =>
            rw [_recover, hpc] at hk
            obtain ⟨hforce, c', hc', rest'⟩ := ih.2 k hk
            exact ⟨hforce, c', List.mem_cons_of_mem c hc', rest'⟩
        | some id2 =>
            by_cases htr : containsKey s.statuses id2 = true
            · rw [_recover, hpc] at hk
              simp only [htr, not_true_eq_false, Bool.false_eq_true,
                if_false] at hk
              obtain ⟨hforce, c', hc', rest'⟩ := ih.2 k hk
              exact ⟨hforce, c', List.mem_cons_of_mem c hc', rest'⟩
            · simp only [Bool.not_eq_true] at htr
              rw [_recover, hpc] at hk
              simp only [htr, Bool.false_eq_true, not_false_iff, if_true,
                List.mem_cons] at hk
              rcases hk with hk | hk
              · subst hk
                exact ⟨rfl, c, List.mem_cons_self c rest, rfl, id2, hpc, htr⟩
              · obtain ⟨hforce, c', hc', rest'⟩ := ih.2 k hk
                exact ⟨hforce, c', List.mem_cons_of_mem c hc', rest'⟩

/-- The `docker ps` listing of the C9 witness (the spec's recovery-with-
orphans scenario): a tracked container, an orphan, and a foreign
container. -/
def csC9 : List DockerContainer :=
  [⟨str "rtA", str "/mesos-Cx", none⟩,
   ⟨str "rtB", str "/mesos-Cy", none⟩,
   ⟨str "rtC", str "user-thing", none⟩]

/-- A state tracking only container `Cx`. -/
def s0C9 : DCP :=
  ⟨[(⟨str "Cx"⟩, .pending)], [(⟨str "Cx"⟩, .reap 7)], [], [], []⟩

/-- C9 witness: in the scenario state, the orphan `rtB` is killed and the
sweep kills nothing but force-kills of listed parseable untracked
containers. -/
theorem recoverSweep_kills_exactly_orphans_witness :
    (⟨str "rtB", true⟩ : KillCmd) ∈ _recover s0C9 csC9 :=
  (recoverSweep_kills_exactly_orphans s0C9 csC9).1
    ⟨str "rtB", str "/mesos-Cy", none⟩ (by simp [csC9]) ⟨str "Cy"⟩
    (by decide) (by decide)

/-! ## C8 and C10: snapshot recovery -/

/-- What the snapshot loop does with one executor: skip it, abort on a
`CHECK` violation, or install a record (promise, reap of the pid, `reaped`
callback). -/
inductive RecoverStep where
  | skip
  | check
  | install (containerId : ContainerID) (pid : Nat)
deriving DecidableEq, Repr

/-- The per-executor decision of the snapshot loop (mirrors the guard
sequence of `recoverExecs`). -/
def recoverStep (e : ExecutorState) : RecoverStep :=
  if e.info.isNone then .skip
  else
    match e.latest with
    | none => .skip
    | some containerId =>
        match lookupKey e.runs containerId with
        | none => .check
        | some run =>
            if run.id ≠ some containerId then .check
            else
              match run.forkedPid with
              | none => .skip
              | some pid =>
                  if run.completed then .skip else .install containerId pid

/-- Installing one recovered container: promise, reap of the pid, `reaped`
callback. -/
def installRecord (s : DCP) (containerId : ContainerID) (pid : Nat) : DCP :=
  { s with
      promises := putKey s.promises containerId .pending,
      statuses := putKey s.statuses containerId (.reap pid),
      reapedCallbacks := containerId :: s.reapedCallbacks }

/-- The container id an executor of the snapshot contributes to recovery:
present exactly when the executor's info was recovered, its latest run is
recorded consistently, a forked pid was checkpointed, and the run has not
completed. -/
def recoversId (e : ExecutorState) : Option ContainerID :=
  match e.info, e.latest with
  | some _, some containerId =>
      (match lookupKey e.runs containerId with
       | some run =>
           if run.id = some containerId ∧ run.forkedPid.isSome ∧
               ¬ run.completed then
             some containerId
           else none
       | none => none)
  | _, _ => none

/-- The ids the claim expects `recover` to track, in snapshot order. -/
def recoverableIds (execs : List ExecutorState) : List ContainerID :=
  execs.filterMap recoversId

theorem recoverExecs_cons (s : DCP) (pids : List (ContainerID × Nat))
    (e : ExecutorState) (rest : List ExecutorState) :
    recoverExecs s pids (e :: rest) =
      match recoverStep e with
      | .skip => recoverExecs s pids rest
      | .check => (s, pids, some .checkFailed)
      | .install c p =>
          if containsValue pids p then
            (installRecord s c p, pids, some (.duplicatePid p c))
          else recoverExecs (installRecord s c p) (putKey pids c p) rest := by
  obtain ⟨info, latest, runs⟩ := e
  cases info with
  | none => simp [recoverExecs, recoverStep]
  | some u =>
      cases latest with
      | none => simp [recoverExecs, recoverStep]
      | some c =>
          cases hl : lookupKey runs c with
          | none => simp [recoverExecs, recoverStep, hl]
          | some run =>
              by_cases hid : run.id = some c
              · cases hp : run.forkedPid with
                | none => simp [recoverExecs, recoverStep, hl, hid, hp]
                | some p =>
                    by_cases hc : run.completed
                    · simp [recoverExecs, recoverStep, hl, hid, hp, hc]
                    · simp [recoverExecs, recoverStep, installRecord, hl,
                        hid, hp, hc]
              · simp [recoverExecs, recoverStep, hl, hid]

theorem recoversId_of_step_skip (e : ExecutorState)
    (h : recoverStep e = .skip) : recoversId e = none := by
  obtain ⟨info, latest, runs⟩ := e
  cases info with
  | none => simp [recoversId]
  | some u =>
      cases latest with
      | none => simp [recoversId]
      | some c =>
          cases hl : lookupKey runs c with
          | none => simp [recoverStep, hl] at h
          | some run =>
              by_cases hid : run.id = some c
              · cases hp : run.forkedPid with
                | none => simp [recoversId, hl, hp]
                | some p =>
                    by_cases hc : run.completed
                    · simp [recoversId, hl, hc]
                    · simp [recoverStep, hl, hid, hp, hc] at h
              · simp [recoverStep, hl, hid] at h

theorem recoversId_of_step_check (e : ExecutorState)
    (h : recoverStep e = .check) : recoversId e = none := by
  obtain ⟨info, latest, runs⟩ := e
  cases info with
  | none => simp [recoverStep] at h
  | some u =>
      cases latest with
      | none => simp [recoverStep] at h
      | some c =>
          cases hl : lookupKey runs c with
          | none => simp [recoversId, hl]
          | some run =>
              by_cases hid : run.id = some c
              · cases hp : run.forkedPid with
                | none => simp [recoverStep, hl, hid, hp] at h
                | some p =>
                    by_cases hc : run.completed
                    · simp [recoverStep, hl, hid, hp, hc] at h
                    · simp [recoverStep, hl, hid, hp, hc] at h
              · simp [recoversId, hl, hid]

theorem recoversId_of_step_install (e : ExecutorState) (c : ContainerID)
    (p : Nat) (h : recoverStep e = .install c p) : recoversId e = some c := by
  obtain ⟨info, latest, runs⟩ := e
  cases info with
  | none => simp [recoverStep] at h
  | some u =>
      cases latest with
      | none => simp [recoverStep] at h
      | some c' =>
          cases hl : lookupKey runs c' with
          | none => simp [recoverStep, hl] at h
          | some run =>
              by_cases hid : run.id = some c'
              · cases hp : run.forkedPid with
                | none => simp [recoverStep, hl, hid, hp] at h
                | some p' =>
                    by_cases hc : run.completed
                    · simp [recoverStep, hl, hid, hp, hc] at h
                    · simp only [recoverStep, hl, hid, hp, hc] at h
                      simp at h
                      obtain ⟨hc', hp'⟩ := h
                      subst hc'
                      simp [recoversId, hl, hid, hp, hc]
              · simp [recoverStep, hl, hid] at h

theorem containsKey_putKey_iff {α : Type} (l : List (ContainerID × α))
    (k k' : ContainerID) (v : α) :
    containsKey (putKey l k v) k' = true ↔
      (k' = k ∨ containsKey l k' = true) := by
  by_cases h : k = k'
  · subst h
    simp [containsKey_putKey_self]
  · unfold containsKey
    rw [lookupKey_putKey_ne l k k' v h]
    simp [containsKey, Ne.symm h]

theorem recoverExecs_callbacks_mono (execs : List ExecutorState) (s : DCP)
    (pids : List (ContainerID × Nat)) (id : ContainerID)
    (h : id ∈ s.reapedCallbacks) :
    id ∈ (recoverExecs s pids execs).1.reapedCallbacks := by
  induction execs generalizing s pids with
  | nil => simpa [recoverExecs] using h
  | cons e rest ih =>
      rw [recoverExecs_cons]
      cases hstep : recoverStep e with
      | skip => exact ih s pids h
      | check => simpa using h
      | install c p =>
          by_cases hdup : containsValue pids p = true
          · simp only [hdup, if_true]
            simpa [installRecord] using List.mem_cons_of_mem c h
          · simp only [hdup, Bool.false_eq_true, if_false]
            exact ih (installRecord s c p) (putKey pids c p)
              (by simpa [installRecord] using List.mem_cons_of_mem c h)

theorem recoverExecs_promises_mono (execs : List ExecutorState) (s : DCP)
    (pids : List (ContainerID × Nat)) (id : ContainerID)
    (h : containsKey s.promises id = true) :
    containsKey (recoverExecs s pids execs).1.promises id = true := by
  induction execs generalizing s pids with
  | nil => simpa [recoverExecs] using h
  | cons e rest ih =>
      rw [recoverExecs_cons]
      cases hstep : recoverStep e with
      | skip => exact ih s pids h
      | check => simpa using h
      | install c p =>
          have hput : containsKey (installRecord s c p).promises id = true := by
            have hk := (containsKey_putKey_iff s.promises c id .pending).mpr
              (Or.inr h)
            simpa [installRecord] using hk
          by_cases hdup : containsValue pids p = true
          · simp only [hdup, if_true]
            exact hput
          · simp only [hdup, Bool.false_eq_true, if_false]
            exact ih (installRecord s c p) (putKey pids c p) hput

theorem recoverExecs_frame (execs : List ExecutorState) (s : DCP)
    (pids : List (ContainerID × Nat)) (s' : DCP)
    (pids' : List (ContainerID × Nat))
    (h : recoverExecs s pids execs = (s', pids', none)) (id : ContainerID)
    (hid : id ∉ recoverableIds execs) :
    lookupKey s'.promises id = lookupKey s.promises id ∧
    lookupKey s'.statuses id = lookupKey s.statuses id := by
  induction execs generalizing s pids with
  | nil =>
      simp only [recoverExecs, Prod.mk.injEq] at h
      rw [h.1]
      exact ⟨rfl, rfl⟩
  | cons e rest ih =>
      rw [recoverExecs_cons] at h
      cases hstep : recoverStep e with
      | skip =>
          rw [hstep] at h
          have hnone := recoversId_of_step_skip e hstep
          exact ih s pids h
            (by simpa [recoverableIds, List.filterMap_cons, hnone] using hid)
      | check =>
          rw [hstep] at h
          simp at h
      | install c p =>
          rw [hstep] at h
          by_cases hdup : containsValue pids p = true
          · simp only [hdup, if_true] at h
            simp at h
          · simp only [hdup, Bool.false_eq_true, if_false] at h
            have hsome := recoversId_of_step_install e c p hstep
            have hid' : id ∉ recoverableIds rest ∧ id ≠ c := by
              constructor
              · intro hmem
                exact hid (by
                  simp [recoverableIds, List.filterMap_cons, hsome]
                  right
                  simpa [recoverableIds] using hmem)
              · intro heq
                exact hid (by
                  simp [recoverableIds, List.filterMap_cons, hsome, heq])
            have hframe := ih (installRecord s c p) (putKey pids c p) h
              hid'.1
            rw [hframe.1, hframe.2]
            constructor
            · simpa [installRecord] using
                lookupKey_putKey_ne s.promises c id .pending
                  (Ne.symm hid'.2)
            · simpa [installRecord] using
                lookupKey_putKey_ne s.statuses c id (.reap p)
                  (Ne.symm hid'.2)

theorem recoverExecs_installs (execs : List ExecutorState) (s : DCP)
    (pids : List (ContainerID × Nat)) (s' : DCP)
    (pids' : List (ContainerID × Nat))
    (h : recoverExecs s pids execs = (s', pids', none)) (id : ContainerID)
    (hid : id ∈ recoverableIds execs) :
    lookupKey s'.promises id = some .pending ∧
    (∃ p, lookupKey s'.statuses id = some (.reap p)) ∧
    id ∈ s'.reapedCallbacks := by
  induction execs generalizing s pids with
  | nil => simp [recoverableIds] at hid
  | cons e rest ih =>
      rw [recoverExecs_cons] at h
      cases hstep : recoverStep e with
      | skip =>
          rw [hstep] at h
          have hnone := recoversId_of_step_skip e hstep
          exact ih s pids h
            (by simpa [recoverableIds, List.filterMap_cons, hnone] using hid)
      | check =>
          rw [hstep] at h
          simp at h
      | install c p =>
          rw [hstep] at h
          by_cases hdup : containsValue pids p = true
          · simp only [hdup, if_true] at h
            simp at h
          · simp only [hdup, Bool.false_eq_true, if_false] at h
            have hsome := recoversId_of_step_install e c p hstep
            by_cases hin : id ∈ recoverableIds rest
            · exact ih (installRecord s c p) (putKey pids c p) h hin
            · have heq : id = c := by
                rcases (by simpa [recoverableIds, List.filterMap_cons, hsome]
                    using hid : id = c ∨ id ∈ recoverableIds rest) with
                  heq | hmem
                · exact heq
                · exact absurd hmem hin
              subst heq
              have hframe := recoverExecs_frame rest (installRecord s id p)
                (putKey pids id p) s' pids' h id hin
              refine ⟨?_, ⟨p, ?_⟩, ?_⟩
              · rw [hframe.1]
                simp [installRecord, lookupKey_putKey_self]
              · rw [hframe.2]
                simp [installRecord, lookupKey_putKey_self]
              · have := recoverExecs_callbacks_mono rest (installRecord s id p)
                  (putKey pids id p) id (by simp [installRecord])
                rwa [h] at this

theorem recoverExecs_tracked (execs : List ExecutorState) (s : DCP)
    (pids : List (ContainerID × Nat)) (s' : DCP)
    (pids' : List (ContainerID × Nat))
    (h : recoverExecs s pids execs = (s', pids', none)) (id : ContainerID) :
    containsKey s'.promises id = true ↔
      (containsKey s.promises id = true ∨ id ∈ recoverableIds execs) := by
  induction execs generalizing s pids with
  | nil =>
      simp only [recoverExecs, Prod.mk.injEq] at h
      rw [h.1]
      simp [recoverableIds]
  | cons e rest ih =>
      rw [recoverExecs_cons] at h
      cases hstep : recoverStep e with
      | skip =>
          rw [hstep] at h
          have hnone := recoversId_of_step_skip e hstep
          rw [ih s pids h]
          simp [recoverableIds, List.filterMap_cons, hnone]
      | check =>
          rw [hstep] at h
          simp at h
      | install c p =>
          rw [hstep] at h
          by_cases hdup : containsValue pids p = true
          · simp only [hdup, if_true] at h
            simp at h
          · simp only [hdup, Bool.false_eq_true, if_false] at h
            have hsome := recoversId_of_step_install e c p hstep
            rw [ih (installRecord s c p) (putKey pids c p) h]
            have hput : containsKey (installRecord s c p).promises id = true ↔
                (id = c ∨ containsKey s.promises id = true) := by
              simpa [installRecord] using
                containsKey_putKey_iff s.promises c id .pending
            rw [hput]
            simp only [recoverableIds, List.filterMap_cons, hsome,
              List.mem_cons]
            tauto

theorem recoverExecs_duplicate (execs : List ExecutorState) (s : DCP)
    (pids : List (ContainerID × Nat)) (s' : DCP)
    (pids' : List (ContainerID × Nat)) (p : Nat) (c : ContainerID)
    (h : recoverExecs s pids execs = (s', pids', some (.duplicatePid p c))) :
    lookupKey s'.promises c = some .pending ∧
    lookupKey s'.statuses c = some (.reap p) ∧
    c ∈ s'.reapedCallbacks := by
  induction execs generalizing s pids with
  | nil => simp [recoverExecs] at h
  | cons e rest ih =>
      rw [recoverExecs_cons] at h
      cases hstep : recoverStep e with
      | skip =>
          rw [hstep] at h
          exact ih s pids h
      | check =>
          rw [hstep] at h
          simp at h
      | install c' p' =>
          rw [hstep] at h
          by_cases hdup : containsValue pids p' = true
          · simp only [hdup, if_true, Prod.mk.injEq, Option.some.injEq,
              RecoverErr.duplicatePid.injEq] at h
            obtain ⟨hs, _, hp, hc⟩ := h
            subst hs hp hc
            refine ⟨?_, ?_, ?_⟩
            · simp [installRecord, lookupKey_putKey_self]
            · simp [installRecord, lookupKey_putKey_self]
            · simp [installRecord]
          · simp only [hdup, Bool.false_eq_true, if_false] at h
            exact ih (installRecord s c' p') (putKey pids c' p') h

/-- C8: after a successful `recover(state)` from the empty containerizer, the
tracked ids (keys of `promises`) are exactly the latest-run container ids of
the snapshot executors with a recorded forked pid and a non-completed latest
run (executors whose info or latest run was not recovered are skipped), and
each such id has a pending termination promise, a reap of its forked pid in
`statuses`, and the reaped-to-destroy callback attached. -/
theorem recover_tracked_set (st : SlaveState) (s' : DCP)
    (h : recover DCP.empty (some st) = (s', none)) :
    (∀ id, containsKey s'.promises id = true ↔
      id ∈ recoverableIds (allExecutors st)) ∧
    (∀ id, id ∈ recoverableIds (allExecutors st) →
      lookupKey s'.promises id = some .pending ∧
      (∃ p, lookupKey s'.statuses id = some (.reap p)) ∧
      id ∈ s'.reapedCallbacks) := by
  rcases hrec : recoverExecs DCP.empty [] (allExecutors st) with ⟨s₁, pids₁, e⟩
  simp only [recover, hrec, Prod.mk.injEq] at h
  obtain ⟨hs, he⟩ := h
  subst hs he
  constructor
  · intro id
    have htr := recoverExecs_tracked (allExecutors st) DCP.empty [] s₁ pids₁
      hrec id
    simpa [DCP.empty, containsKey, lookupKey] using htr
  · intro id hid
    exact recoverExecs_installs (allExecutors st) DCP.empty [] s₁ pids₁ hrec
      id hid

/-- An executor with a live checkpointed run (pid 7, container `Cx`). -/
def exC8a : ExecutorState :=
  ⟨some (), some ⟨str "Cx"⟩, [(⟨str "Cx"⟩, ⟨some ⟨str "Cx"⟩, some 7, false⟩)]⟩

/-- An executor whose latest run has no checkpointed pid (skipped). -/
def exC8b : ExecutorState :=
  ⟨some (), some ⟨str "Cz"⟩, [(⟨str "Cz"⟩, ⟨some ⟨str "Cz"⟩, none, false⟩)]⟩

/-- The C8 witness snapshot. -/
def stC8 : SlaveState := ⟨[⟨[exC8a, exC8b]⟩]⟩

/-- The state recovered from the C8 witness snapshot. -/
def sC8 : DCP := (recover DCP.empty (some stC8)).1

/-- C8 witness: the theorem at the concrete snapshot — `Cx` is tracked with a
pending promise, a reap, and the callback. -/
theorem recover_tracked_set_witness :
    containsKey sC8.promises ⟨str "Cx"⟩ = true ∧
    lookupKey sC8.promises ⟨str "Cx"⟩ = some .pending ∧
    ⟨str "Cx"⟩ ∈ sC8.reapedCallbacks :=
  ⟨((recover_tracked_set stC8 sC8 (by decide)).1 ⟨str "Cx"⟩).mpr (by decide),
   ((recover_tracked_set stC8 sC8 (by decide)).2 ⟨str "Cx"⟩ (by decide)).1,
   ((recover_tracked_set stC8 sC8 (by decide)).2 ⟨str "Cx"⟩
     (by decide)).2.2⟩

/-- C10: when `recover` fails on a duplicate pid, nothing is rolled back —
the returned state still holds the colliding container's pending promise,
its reap registration and its reaped callback (installed just before the
failure was returned), and every record present before the call is still
present. -/
theorem recover_duplicatePid_no_rollback (s₀ : DCP) (st : SlaveState)
    (s' : DCP) (p : Nat) (c : ContainerID)
    (h : recover s₀ (some st) = (s', some (.duplicatePid p c))) :
    lookupKey s'.promises c = some .pending ∧
    lookupKey s'.statuses c = some (.reap p) ∧
    c ∈ s'.reapedCallbacks ∧
    ∀ id, containsKey s₀.promises id = true →
      containsKey s'.promises id = true := by
  rcases hrec : recoverExecs s₀ [] (allExecutors st) with ⟨s₁, pids₁, e⟩
  simp only [recover, hrec, Prod.mk.injEq] at h
  obtain ⟨hs, he⟩ := h
  subst hs he
  have hdup := recoverExecs_duplicate (allExecutors st) s₀ [] s₁ pids₁ p c
    hrec
  refine ⟨hdup.1, hdup.2.1, hdup.2.2, fun id hid => ?_⟩
  have hmono := recoverExecs_promises_mono (allExecutors st) s₀ [] id hid
  rwa [hrec] at hmono

/-- An executor with a live checkpointed run (pid 9, container `Cw`). -/
def exC10a : ExecutorState :=
  ⟨some (), some ⟨str "Cw"⟩, [(⟨str "Cw"⟩, ⟨some ⟨str "Cw"⟩, some 9, false⟩)]⟩

/-- An executor whose run collides on pid 9 (container `Cy`). -/
def exC10b : ExecutorState :=
  ⟨some (), some ⟨str "Cy"⟩, [(⟨str "Cy"⟩, ⟨some ⟨str "Cy"⟩, some 9, false⟩)]⟩

/-- The C10 witness snapshot with a duplicated pid. -/
def stC10 : SlaveState := ⟨[⟨[exC10a, exC10b]⟩]⟩

/-- The state left behind by the failed recovery of the C10 snapshot. -/
def sC10 : DCP := (recover DCP.empty (some stC10)).1

/-- C10 witness: the theorem at the concrete duplicate-pid snapshot — the
colliding container `Cy` keeps its installed records. -/
theorem recover_duplicatePid_no_rollback_witness :
    lookupKey sC10.promises ⟨str "Cy"⟩ = some .pending ∧
    lookupKey sC10.statuses ⟨str "Cy"⟩ = some (.reap 9) ∧
    ⟨str "Cy"⟩ ∈ sC10.reapedCallbacks :=
  ⟨(recover_duplicatePid_no_rollback DCP.empty stC10 sC10 9 ⟨str "Cy"⟩
      (by decide)).1,
   (recover_duplicatePid_no_rollback DCP.empty stC10 sC10 9 ⟨str "Cy"⟩
      (by decide)).2.1,
   (recover_duplicatePid_no_rollback DCP.empty stC10 sC10 9 ⟨str "Cy"⟩
      (by decide)).2.2.1⟩

end DockerCtz
